import Mathlib

/-!
Shallow embedding of the racetrack off-policy Monte Carlo control notebook
(`Racetrack (off-policy, weighted importance sampling).ipynb`).

States are an opaque decidable-equality type `S`; actions are `Nat` indices;
rewards and probabilities are modelled with exact rationals `ℚ` (the Python
code uses IEEE floats; every property below only involves arithmetic that is
exact in both systems).  The Python `defaultdict(lambda: np.zeros(nA))`
tables `Q` and `C` are modelled as association lists `List (S × List ℚ)`
whose insertion order matches Python dict insertion order, with explicit
insert-on-read semantics (`getItem`) so that side effects of lazy default
creation are visible in the model.
-/

set_option autoImplicit false

namespace Racetrack

variable {S : Type} [DecidableEq S]

/-- Association-list representation of a `defaultdict(state -> row of nA rationals)`. -/
abbrev Rows (S : Type) := List (S × List ℚ)

/-- Find the stored row for a state, if present (Python `state in dict` / raw lookup). -/
def lookupRow : Rows S → S → Option (List ℚ)
  | [], _ => none
  | (k, r) :: rest, s => if k = s then some r else lookupRow rest s

/-- Store a row for a state, replacing an existing binding or appending a new
one at the end (Python dict write preserves insertion order, new keys append). -/
def setRow : Rows S → S → List ℚ → Rows S
  | [], s, r => [(s, r)]
  | (k, v) :: rest, s, r => if k = s then (k, r) :: rest else (k, v) :: setRow rest s r

/-- Row for a state as read through the defaultdict: the stored row, or the
all-zero default `np.zeros(nA)` when the state is absent. -/
def getRow (nA : Nat) (rows : Rows S) (s : S) : List ℚ :=
  (lookupRow rows s).getD (List.replicate nA 0)

/-- Value of one cell, `table[state][action]` (0 past the end of the row). -/
def getVal (nA : Nat) (rows : Rows S) (s : S) (a : Nat) : ℚ :=
  (getRow nA rows s).getD a 0

/-- The `defaultdict.__getitem__` side effect: return the row, inserting the
zero default row (at the end) when the state is absent. -/
def getItem (nA : Nat) (rows : Rows S) (s : S) : List ℚ × Rows S :=
  match lookupRow rows s with
  | some r => (r, rows)
  | none => (List.replicate nA 0, rows ++ [(s, List.replicate nA 0)])

/-- In-place cell write `table[state][action] = v` through the defaultdict:
the missing row is created first, then its `action` slot is overwritten. -/
def setItem (nA : Nat) (rows : Rows S) (s : S) (a : Nat) (v : ℚ) : Rows S :=
  setRow rows s ((getRow nA rows s).set a v)

/-- All stored rows have length `nA` (the tables only ever hold
`np.zeros(env.action_space.n)`-shaped rows). -/
def WF (nA : Nat) (rows : Rows S) : Prop :=
  ∀ p ∈ rows, (p.2).length = nA

/-- Helper for `argmaxFirst`: scan the tail keeping the first maximum seen so
far (`bi` its index, `bv` its value, `i` the index of the head of the rest). -/
def argmaxGo (i bi : Nat) (bv : ℚ) : List ℚ → Nat
  | [] => bi
  | x :: xs => if bv < x then argmaxGo (i + 1) i x xs else argmaxGo (i + 1) bi bv xs

/-- Model of `np.argmax`: index of the first maximum of the list (0 on `[]`,
where NumPy would raise). -/
def argmaxFirst : List ℚ → Nat
  | [] => 0
  | x :: xs => argmaxGo 1 0 x xs

/-- Model of `A = np.zeros(n); A[i] = 1.0`: a one-hot vector of length `n`. -/
def oneHot : Nat → Nat → List ℚ
  | 0, _ => []
  | n + 1, 0 => 1 :: List.replicate n 0
  | n + 1, i + 1 => 0 :: oneHot n i

/-- Model of `create_random_policy`: a stateless policy returning the uniform
distribution `np.ones(nA) / nA` at every state. -/
def create_random_policy (nA : Nat) : S → List ℚ :=
  fun _ => List.replicate nA ((1 : ℚ) / nA)

/-- Model of `create_greedy_policy(Q)`'s inner `policy_fn`: reads `Q[state]`
through the defaultdict (which inserts the zero row when absent — the second
component is the table after that side effect) and returns the one-hot
distribution at the first argmax of the row. -/
def create_greedy_policy (nA : Nat) (rows : Rows S) (s : S) : List ℚ × Rows S :=
  let pr := getItem nA rows s
  (oneHot pr.1.length (argmaxFirst pr.1), pr.2)

/-- Notebook constant: episodes per training run. -/
def N_EPISODE : Nat := 1000000

/-- Notebook constant: step budget per episode. -/
def MAX_STEP : Nat := 70

/-- Running state of the backward pass of `mc_control_importance_sampling`:
the return accumulator `G`, the importance weight `W`, and the two tables. -/
structure MCState (S : Type) where
  G : ℚ
  W : ℚ
  C : Rows S
  Q : Rows S

/-- One backward-pass update step (notebook lines `G = discount_factor * G +
reward` through `Q[state][action] += qd`): returns the new `G` and the two
updated tables.  Reading a cell through the defaultdict inserts the zero row
before the in-place write, which `setItem` reproduces. -/
def stepUpdate (γ : ℚ) (nA : Nat) (s : S) (a : Nat) (r G W : ℚ) (C Q : Rows S) :
    ℚ × Rows S × Rows S :=
  let G1 := γ * G + r
  let C1 := setItem nA C s a (getVal nA C s a + W)
  let qd := (W / getVal nA C1 s a) * (G1 - getVal nA Q s a)
  let Q1 := setItem nA Q s a (getVal nA Q s a + qd)
  (G1, C1, Q1)

/-- One full iteration of the reverse traversal: the update step, then the
policy-consistency check `action != np.argmax(target_policy(state))` against
the just-updated `Q` (the target policy reads `Q` by reference), and on match
the weight update `W = W * 1./behavior_policy(state)[action]`.  The boolean is
`true` when the loop breaks. -/
def backIter (γ : ℚ) (bp : S → List ℚ) (nA : Nat) (s : S) (a : Nat) (r : ℚ)
    (st : MCState S) : MCState S × Bool :=
  let u := stepUpdate γ nA s a r st.G st.W st.C st.Q
  let pr := create_greedy_policy nA u.2.2 s
  if a = argmaxFirst pr.1 then
    let bepol := (bp s).getD a 0
    (⟨u.1, st.W * (1 / bepol), u.2.1, pr.2⟩, false)
  else
    (⟨u.1, st.W, u.2.1, pr.2⟩, true)

/-- The reverse traversal `for t in range(len(episode))[::-1]`, given the
episode already reversed (latest step first), with early break. -/
def backLoop (γ : ℚ) (bp : S → List ℚ) (nA : Nat) : List (S × Nat × ℚ) → MCState S → MCState S
  | [], st => st
  | (s, a, r) :: rest, st =>
    let it := backIter γ bp nA s a r st
    if it.2 then it.1 else backLoop γ bp nA rest it.1

/-- Backward pass over one chronological episode: `G = 0.0`, `W = 1.0`, then
the reverse traversal. -/
def backwardPass (γ : ℚ) (bp : S → List ℚ) (nA : Nat) (episode : List (S × Nat × ℚ))
    (C Q : Rows S) : MCState S :=
  backLoop γ bp nA episode.reverse ⟨0, 1, C, Q⟩

/-- The per-episode backward passes of the control loop, folded over a list of
already-generated trajectories: `G` and `W` reset for each episode while the
`C` and `Q` tables persist across episodes. -/
def runEpisodes (γ : ℚ) (bp : S → List ℚ) (nA : Nat) :
    List (List (S × Nat × ℚ)) → Rows S × Rows S → Rows S × Rows S
  | [], tabs => tabs
  | ep :: rest, tabs =>
    let st := backwardPass γ bp nA ep tabs.1 tabs.2
    runEpisodes γ bp nA rest (st.C, st.Q)

/-- Episode generation loop `for t in range(MAX_STEP)` of the control loop:
`stepf` is the environment's `step` (next state, reward, done), `choose`
abstracts the stochastic draw `np.random.choice(..., p=behavior_policy(state))`
(it is given the remaining fuel and the current state).  Each step's triple is
appended before the `done` check, so a `done` step still contributes its
triple. -/
def genLoop (stepf : S → Nat → S × ℚ × Bool) (choose : Nat → S → Nat) :
    Nat → S → List (S × Nat × ℚ)
  | 0, _ => []
  | fuel + 1, s =>
    let a := choose (fuel + 1) s
    let res := stepf s a
    (s, a, res.2.1) :: (if res.2.2 then [] else genLoop stepf choose fuel res.1)

/-- One iteration of the outer episode loop of `mc_control_importance_sampling`:
generate a trajectory from the initial state `s0`, then run the backward pass
on it — unconditionally, whether the trajectory ended on `done` or by
exhausting the step budget. -/
def mc_episode (γ : ℚ) (bp : S → List ℚ) (nA : Nat) (stepf : S → Nat → S × ℚ × Bool)
    (choose : Nat → S → Nat) (maxStep : Nat) (s0 : S) (C Q : Rows S) : MCState S :=
  backwardPass γ bp nA (genLoop stepf choose maxStep s0) C Q

/-! ## Basic lemmas about the table model -/

theorem getD_set (l : List ℚ) : ∀ (i j : Nat) (v : ℚ),
    (l.set i v).getD j 0 = if i = j ∧ i < l.length then v else l.getD j 0 := by
  induction l with
  | nil => intro i j v; simp
  | cons x xs ih =>
    intro i j v
    cases i with
    | zero =>
      cases j with
      | zero => simp
      | succ j => simp
    | succ i =>
      cases j with
      | zero => simp
      | succ j =>
        simp only [List.set_cons_succ, List.getD_cons_succ, ih i j v, List.length_cons]
        by_cases h : i = j ∧ i < xs.length
        · rw [if_pos h, if_pos ⟨by omega, by omega⟩]
        · rw [if_neg h, if_neg (by omega)]

theorem getD_replicate (n i : Nat) (c : ℚ) :
    (List.replicate n c).getD i 0 = if i < n then c else 0 := by
  induction n generalizing i with
  | zero => simp
  | succ n ih =>
    cases i with
    | zero => simp
    | succ i =>
      simp only [List.replicate_succ, List.getD_cons_succ, ih i]
      by_cases h : i < n
      · rw [if_pos h, if_pos (by omega)]
      · rw [if_neg h, if_neg (by omega)]

theorem lookupRow_setRow_self (rows : Rows S) (s : S) (r : List ℚ) :
    lookupRow (setRow rows s r) s = some r := by
  induction rows with
  | nil => simp [setRow, lookupRow]
  | cons p rest ih =>
    by_cases h : p.1 = s
    · simp [setRow, lookupRow, h]
    · simp [setRow, lookupRow, h, ih]

theorem lookupRow_setRow_ne (rows : Rows S) (s s' : S) (r : List ℚ) (h : s ≠ s') :
    lookupRow (setRow rows s r) s' = lookupRow rows s' := by
  induction rows with
  | nil => simp [setRow, lookupRow, h]
  | cons p rest ih =>
    by_cases hp : p.1 = s
    · simp [setRow, lookupRow, hp, h]
    · simp only [setRow, if_neg hp, lookupRow]
      by_cases hp' : p.1 = s' <;> simp [hp', ih]

theorem lookupRow_append_single (rows : Rows S) (s s' : S) (z : List ℚ) :
    lookupRow (rows ++ [(s, z)]) s' =
      match lookupRow rows s' with
      | some r => some r
      | none => if s = s' then some z else none := by
  induction rows with
  | nil => simp [lookupRow]
  | cons p rest ih =>
    by_cases hp : p.1 = s' <;> simp [lookupRow, hp, ih]

theorem getRow_length (nA : Nat) (rows : Rows S) (s : S) (h : WF nA rows) :
    (getRow nA rows s).length = nA := by
  unfold getRow
  cases hl : lookupRow rows s with
  | none => simp
  | some r =>
    have hmem : ∃ p ∈ rows, p.1 = s ∧ p.2 = r := by
      clear h
      induction rows with
      | nil => simp [lookupRow] at hl
      | cons p rest ih =>
        by_cases hp : p.1 = s
        · simp [lookupRow, hp] at hl
          exact ⟨p, by simp, hp, hl⟩
        · simp only [lookupRow, if_neg hp] at hl
          obtain ⟨q, hq, hq1, hq2⟩ := ih hl
          exact ⟨q, by simp [hq], hq1, hq2⟩
    obtain ⟨p, hp, _, hp2⟩ := hmem
    simpa [hp2] using h p hp

theorem WF_setRow (nA : Nat) (rows : Rows S) (s : S) (r : List ℚ)
    (h : WF nA rows) (hr : r.length = nA) : WF nA (setRow rows s r) := by
  induction rows with
  | nil => intro p hp; simp [setRow] at hp; simp [hp, hr]
  | cons q rest ih =>
    obtain ⟨k, v⟩ := q
    by_cases hq : k = s
    · intro p hp
      simp only [setRow, if_pos hq] at hp
      rcases List.mem_cons.mp hp with hp | hp
      · simp [hp, hr]
      · exact h p (List.mem_cons_of_mem _ hp)
    · intro p hp
      simp only [setRow, if_neg hq] at hp
      rcases List.mem_cons.mp hp with hp | hp
      · exact h p (by simp [hp])
      · exact ih (fun q' hq' => h q' (List.mem_cons_of_mem _ hq')) p hp

theorem WF_setItem (nA : Nat) (rows : Rows S) (s : S) (a : Nat) (v : ℚ)
    (h : WF nA rows) : WF nA (setItem nA rows s a v) := by
  refine WF_setRow nA rows s _ h ?_
  rw [List.length_set]
  exact getRow_length nA rows s h

/-- Master lemma for cell reads after a cell write: the written cell holds the
new value exactly when the write index is within the row, every other cell is
untouched. -/
theorem getVal_setItem (nA : Nat) (rows : Rows S) (s : S) (a : Nat) (v : ℚ) (s' : S) (a' : Nat) :
    getVal nA (setItem nA rows s a v) s' a' =
      if s = s' ∧ a = a' ∧ a < (getRow nA rows s).length then v
      else getVal nA rows s' a' := by
  by_cases hs : s = s'
  · subst hs
    unfold getVal setItem getRow
    rw [lookupRow_setRow_self]
    simp only [Option.getD_some]
    rw [getD_set]
    by_cases h : a = a' ∧ a < ((lookupRow rows s).getD (List.replicate nA 0)).length
    · rw [if_pos h, if_pos ⟨trivial, h.1, h.2⟩]
    · rw [if_neg h, if_neg ?_]
      intro hc
      exact h ⟨hc.2.1, hc.2.2⟩
  · unfold getVal setItem getRow
    rw [lookupRow_setRow_ne rows s s' _ hs]
    rw [if_neg (fun hc => hs hc.1)]

theorem getVal_setItem_self (nA : Nat) (rows : Rows S) (s : S) (a : Nat) (v : ℚ)
    (h : WF nA rows) (ha : a < nA) : getVal nA (setItem nA rows s a v) s a = v := by
  rw [getVal_setItem, if_pos ⟨rfl, rfl, by rw [getRow_length nA rows s h]; exact ha⟩]

/-! ## Lemmas about `argmaxFirst` and `oneHot` -/

/-- Full characterization of the `argmaxGo` scan: either no element of the
rest beats the best-so-far `bv` (and the best index `bi` is returned), or the
result points at the first strict improvement over everything. -/
theorem argmaxGo_spec (l : List ℚ) : ∀ (i bi : Nat) (bv : ℚ),
    (argmaxGo i bi bv l = bi ∧ ∀ k, k < l.length → l.getD k 0 ≤ bv) ∨
    (∃ k, k < l.length ∧ argmaxGo i bi bv l = i + k ∧ bv < l.getD k 0 ∧
      (∀ j, j < l.length → l.getD j 0 ≤ l.getD k 0) ∧
      (∀ j, j < k → l.getD j 0 < l.getD k 0)) := by
  induction l with
  | nil => intro i bi bv; left; exact ⟨rfl, by intro k hk; simp at hk⟩
  | cons x xs ih =>
    intro i bi bv
    by_cases hx : bv < x
    · rcases ih (i + 1) i x with ⟨h1, h2⟩ | ⟨k, hk, h1, h2, h3, h4⟩
      · right
        refine ⟨0, by simp, ?_, by simpa using hx, ?_, ?_⟩
        · simpa [argmaxGo, if_pos hx] using h1
        · intro j hj
          cases j with
          | zero => simp
          | succ j => simpa using h2 j (by simpa using hj)
        · intro j hj; omega
      · right
        refine ⟨k + 1, by simpa using hk, ?_, ?_, ?_, ?_⟩
        · simp only [argmaxGo, if_pos hx]
          rw [h1]; omega
        · simpa using lt_trans hx h2
        · intro j hj
          cases j with
          | zero => simpa using le_of_lt h2
          | succ j => simpa using h3 j (by simpa using hj)
        · intro j hj
          cases j with
          | zero => simpa using h2
          | succ j => simpa using h4 j (by omega)
    · rcases ih (i + 1) bi bv with ⟨h1, h2⟩ | ⟨k, hk, h1, h2, h3, h4⟩
      · left
        refine ⟨by simpa [argmaxGo, if_neg hx] using h1, ?_⟩
        intro k hk
        cases k with
        | zero => simpa using le_of_not_lt hx
        | succ k => simpa using h2 k (by simpa using hk)
      · right
        refine ⟨k + 1, by simpa using hk, ?_, ?_, ?_, ?_⟩
        · simp only [argmaxGo, if_neg hx]
          rw [h1]; omega
        · simpa using h2
        · intro j hj
          cases j with
          | zero => simpa using le_of_lt (lt_of_le_of_lt (le_of_not_lt hx) h2)
          | succ j => simpa using h3 j (by simpa using hj)
        · intro j hj
          cases j with
          | zero => simpa using lt_of_le_of_lt (le_of_not_lt hx) h2
          | succ j => simpa using h4 j (by omega)

/-- First-maximum semantics of the `np.argmax` model: on a nonempty list the
result is in range, no element exceeds it, and every strictly earlier element
is strictly smaller. -/
theorem argmaxFirst_spec (l : List ℚ) (h : l ≠ []) :
    argmaxFirst l < l.length ∧
    (∀ j, j < l.length → l.getD j 0 ≤ l.getD (argmaxFirst l) 0) ∧
    (∀ j, j < argmaxFirst l → l.getD j 0 < l.getD (argmaxFirst l) 0) := by
  cases l with
  | nil => exact absurd rfl h
  | cons x xs =>
    rw [argmaxFirst]
    rcases argmaxGo_spec xs 1 0 x with ⟨h1, h2⟩ | ⟨k, hk, h1, h2, h3, h4⟩
    · rw [h1]
      refine ⟨by simp, ?_, by intro j hj; omega⟩
      intro j hj
      cases j with
      | zero => simp
      | succ j => simpa using h2 j (by simpa using hj)
    · rw [h1]
      have hk1 : 1 + k = k + 1 := by omega
      rw [hk1]
      refine ⟨by simpa using hk, ?_, ?_⟩
      · intro j hj
        cases j with
        | zero => simpa using le_of_lt h2
        | succ j => simpa using h3 j (by simpa using hj)
      · intro j hj
        cases j with
        | zero => simpa using h2
        | succ j => simpa using h4 j (by omega)

/-- The first argmax of a constant row is index 0. -/
theorem argmaxFirst_replicate (n : Nat) (c : ℚ) :
    argmaxFirst (List.replicate n c) = 0 := by
  cases n with
  | zero => rfl
  | succ n =>
    rw [List.replicate_succ, argmaxFirst]
    rcases argmaxGo_spec (List.replicate n c) 1 0 c with ⟨h1, _⟩ | ⟨k, hk, _, h2, _, _⟩
    · exact h1
    · have hk' : k < n := by simpa using hk
      rw [getD_replicate, if_pos hk'] at h2
      exact absurd h2 (lt_irrefl c)

theorem length_oneHot (n i : Nat) : (oneHot n i).length = n := by
  induction n generalizing i with
  | zero => rfl
  | succ n ih =>
    cases i with
    | zero => simp [oneHot]
    | succ i => simp [oneHot, ih i]

theorem getD_oneHot_self (n i : Nat) (h : i < n) : (oneHot n i).getD i 0 = 1 := by
  induction n generalizing i with
  | zero => omega
  | succ n ih =>
    cases i with
    | zero => simp [oneHot]
    | succ i => simpa [oneHot] using ih i (by omega)

theorem getD_oneHot_ne (n i j : Nat) (h : j ≠ i) : (oneHot n i).getD j 0 = 0 := by
  induction n generalizing i j with
  | zero => simp [oneHot]
  | succ n ih =>
    cases i with
    | zero =>
      cases j with
      | zero => omega
      | succ j => simp [oneHot, getD_replicate]
    | succ i =>
      cases j with
      | zero => simp [oneHot]
      | succ j => simpa [oneHot] using ih i j (by omega)

/-- Taking `np.argmax` of the one-hot distribution recovers the hot index. -/
theorem argmaxFirst_oneHot (n i : Nat) (h : i < n) : argmaxFirst (oneHot n i) = i := by
  have hne : oneHot n i ≠ [] := by
    intro hc
    have := length_oneHot n i
    rw [hc] at this
    simp at this
    omega
  obtain ⟨hlt, hmax, _⟩ := argmaxFirst_spec (oneHot n i) hne
  by_contra hne2
  have h1 : (oneHot n i).getD (argmaxFirst (oneHot n i)) 0 = 0 :=
    getD_oneHot_ne n i _ hne2
  have h2 : (oneHot n i).getD i 0 = 1 := getD_oneHot_self n i h
  have h3 := hmax i (by rw [length_oneHot]; exact h)
  rw [h1, h2] at h3
  norm_num at h3

/-! ## Glue lemmas for the greedy policy and the backward pass -/

theorem create_greedy_policy_of_some (nA : Nat) (rows : Rows S) (s : S) (row : List ℚ)
    (h : lookupRow rows s = some row) :
    create_greedy_policy nA rows s = (oneHot row.length (argmaxFirst row), rows) := by
  simp [create_greedy_policy, getItem, h]

theorem create_greedy_policy_of_none (nA : Nat) (rows : Rows S) (s : S)
    (h : lookupRow rows s = none) :
    create_greedy_policy nA rows s =
      (oneHot nA (argmaxFirst (List.replicate nA 0)), rows ++ [(s, List.replicate nA 0)]) := by
  simp [create_greedy_policy, getItem, h]

theorem lookupRow_setItem_self (nA : Nat) (rows : Rows S) (s : S) (a : Nat) (v : ℚ) :
    lookupRow (setItem nA rows s a v) s = some ((getRow nA rows s).set a v) :=
  lookupRow_setRow_self rows s _

theorem stepUpdate_G (γ : ℚ) (nA : Nat) (s : S) (a : Nat) (r G W : ℚ) (C Q : Rows S) :
    (stepUpdate γ nA s a r G W C Q).1 = γ * G + r := rfl

theorem stepUpdate_C (γ : ℚ) (nA : Nat) (s : S) (a : Nat) (r G W : ℚ) (C Q : Rows S) :
    (stepUpdate γ nA s a r G W C Q).2.1 = setItem nA C s a (getVal nA C s a + W) := rfl

theorem stepUpdate_Q (γ : ℚ) (nA : Nat) (s : S) (a : Nat) (r G W : ℚ) (C Q : Rows S) :
    (stepUpdate γ nA s a r G W C Q).2.2 =
      setItem nA Q s a (getVal nA Q s a +
        (W / getVal nA (setItem nA C s a (getVal nA C s a + W)) s a) *
          ((γ * G + r) - getVal nA Q s a)) := rfl

/-- Reading `Q[state]` inside the target policy right after the backward step
wrote that very state does not change the table. -/
theorem create_greedy_policy_rows_after_set (nA : Nat) (Q : Rows S) (s : S) (a : Nat) (v : ℚ) :
    (create_greedy_policy nA (setItem nA Q s a v) s).2 = setItem nA Q s a v := by
  rw [create_greedy_policy_of_some nA _ s _ (lookupRow_setItem_self nA Q s a v)]

theorem backIter_C (γ : ℚ) (bp : S → List ℚ) (nA : Nat) (s : S) (a : Nat) (r : ℚ)
    (st : MCState S) :
    (backIter γ bp nA s a r st).1.C = (stepUpdate γ nA s a r st.G st.W st.C st.Q).2.1 := by
  unfold backIter
  by_cases h :
      a = argmaxFirst (create_greedy_policy nA (stepUpdate γ nA s a r st.G st.W st.C st.Q).2.2 s).1
  · simp only [if_pos h]
  · simp only [if_neg h]

theorem backIter_Q (γ : ℚ) (bp : S → List ℚ) (nA : Nat) (s : S) (a : Nat) (r : ℚ)
    (st : MCState S) :
    (backIter γ bp nA s a r st).1.Q = (stepUpdate γ nA s a r st.G st.W st.C st.Q).2.2 := by
  unfold backIter
  by_cases h :
      a = argmaxFirst (create_greedy_policy nA (stepUpdate γ nA s a r st.G st.W st.C st.Q).2.2 s).1
  · simp only [if_pos h]
    show (create_greedy_policy nA (stepUpdate γ nA s a r st.G st.W st.C st.Q).2.2 s).2 =
      (stepUpdate γ nA s a r st.G st.W st.C st.Q).2.2
    rw [stepUpdate_Q]
    exact create_greedy_policy_rows_after_set nA st.Q s a _
  · simp only [if_neg h]
    show (create_greedy_policy nA (stepUpdate γ nA s a r st.G st.W st.C st.Q).2.2 s).2 =
      (stepUpdate γ nA s a r st.G st.W st.C st.Q).2.2
    rw [stepUpdate_Q]
    exact create_greedy_policy_rows_after_set nA st.Q s a _

theorem backIter_G (γ : ℚ) (bp : S → List ℚ) (nA : Nat) (s : S) (a : Nat) (r : ℚ)
    (st : MCState S) :
    (backIter γ bp nA s a r st).1.G = γ * st.G + r := by
  unfold backIter
  by_cases h :
      a = argmaxFirst (create_greedy_policy nA (stepUpdate γ nA s a r st.G st.W st.C st.Q).2.2 s).1
  · simp only [if_pos h]; rfl
  · simp only [if_neg h]; rfl

theorem backLoop_cons_break (γ : ℚ) (bp : S → List ℚ) (nA : Nat) (s : S) (a : Nat) (r : ℚ)
    (rest : List (S × Nat × ℚ)) (st : MCState S)
    (h : (backIter γ bp nA s a r st).2 = true) :
    backLoop γ bp nA ((s, a, r) :: rest) st = (backIter γ bp nA s a r st).1 := by
  simp [backLoop, h]

theorem backLoop_cons_continue (γ : ℚ) (bp : S → List ℚ) (nA : Nat) (s : S) (a : Nat) (r : ℚ)
    (rest : List (S × Nat × ℚ)) (st : MCState S)
    (h : (backIter γ bp nA s a r st).2 = false) :
    backLoop γ bp nA ((s, a, r) :: rest) st = backLoop γ bp nA rest (backIter γ bp nA s a r st).1 := by
  simp [backLoop, h]

theorem backLoop_singleton (γ : ℚ) (bp : S → List ℚ) (nA : Nat) (s : S) (a : Nat) (r : ℚ)
    (st : MCState S) :
    backLoop γ bp nA [(s, a, r)] st = (backIter γ bp nA s a r st).1 := by
  by_cases h : (backIter γ bp nA s a r st).2 <;> simp [backLoop, h]

/-- Incrementing one cell by a non-negative weight never decreases any cell. -/
theorem getVal_setItem_ge (nA : Nat) (rows : Rows S) (s : S) (a : Nat) (W : ℚ)
    (hW : 0 ≤ W) (s' : S) (a' : Nat) :
    getVal nA rows s' a' ≤ getVal nA (setItem nA rows s a (getVal nA rows s a + W)) s' a' := by
  rw [getVal_setItem]
  split_ifs with h
  · obtain ⟨hs, ha, _⟩ := h
    subst hs; subst ha
    linarith
  · exact le_refl _

theorem backIter_W_nonneg (γ : ℚ) (bp : S → List ℚ) (nA : Nat) (s : S) (a : Nat) (r : ℚ)
    (st : MCState S) (hW : 0 ≤ st.W) (hbp : 0 ≤ (bp s).getD a 0) :
    0 ≤ (backIter γ bp nA s a r st).1.W := by
  unfold backIter
  by_cases h :
      a = argmaxFirst (create_greedy_policy nA (stepUpdate γ nA s a r st.G st.W st.C st.Q).2.2 s).1
  · simp only [if_pos h]
    exact mul_nonneg hW (div_nonneg zero_le_one hbp)
  · simp only [if_neg h]
    exact hW

/-- Along the whole reverse traversal, every cell of `C` is non-decreasing,
provided the running weight starts non-negative and the behavior policy puts
positive probability on every action taken in the trajectory. -/
theorem backLoop_C_mono (γ : ℚ) (bp : S → List ℚ) (nA : Nat) :
    ∀ (rev : List (S × Nat × ℚ)) (st : MCState S),
      0 ≤ st.W → (∀ e ∈ rev, 0 < (bp e.1).getD e.2.1 0) →
      ∀ (s' : S) (a' : Nat),
        getVal nA st.C s' a' ≤ getVal nA (backLoop γ bp nA rev st).C s' a' := by
  intro rev
  induction rev with
  | nil =>
    intro st hW hbp s' a'
    rw [backLoop]
  | cons e rest ih =>
    obtain ⟨s, a, r⟩ := e
    intro st hW hbp s' a'
    have hstep : getVal nA st.C s' a' ≤ getVal nA (backIter γ bp nA s a r st).1.C s' a' := by
      rw [backIter_C, stepUpdate_C]
      exact getVal_setItem_ge nA st.C s a st.W hW s' a'
    by_cases hb : (backIter γ bp nA s a r st).2 = true
    · rw [backLoop_cons_break γ bp nA s a r rest st hb]
      exact hstep
    · have hb' : (backIter γ bp nA s a r st).2 = false := by
        exact Bool.not_eq_true _ ▸ eq_false_of_ne_true hb
      rw [backLoop_cons_continue γ bp nA s a r rest st hb']
      have hW' : 0 ≤ (backIter γ bp nA s a r st).1.W :=
        backIter_W_nonneg γ bp nA s a r st hW
          (le_of_lt (hbp (s, a, r) (List.mem_cons_self _ _)))
      exact le_trans hstep
        (ih (backIter γ bp nA s a r st).1 hW'
          (fun e he => hbp e (List.mem_cons_of_mem _ he)) s' a')

theorem backwardPass_C_mono (γ : ℚ) (bp : S → List ℚ) (nA : Nat)
    (ep : List (S × Nat × ℚ)) (C Q : Rows S)
    (hbp : ∀ e ∈ ep, 0 < (bp e.1).getD e.2.1 0) (s' : S) (a' : Nat) :
    getVal nA C s' a' ≤ getVal nA (backwardPass γ bp nA ep C Q).C s' a' := by
  unfold backwardPass
  exact backLoop_C_mono γ bp nA ep.reverse ⟨0, 1, C, Q⟩ zero_le_one
    (fun e he => hbp e (List.mem_reverse.mp he)) s' a'

theorem runEpisodes_C_mono (γ : ℚ) (bp : S → List ℚ) (nA : Nat) :
    ∀ (eps : List (List (S × Nat × ℚ))) (C Q : Rows S),
      (∀ ep ∈ eps, ∀ e ∈ ep, 0 < (bp e.1).getD e.2.1 0) →
      ∀ (s' : S) (a' : Nat),
        getVal nA C s' a' ≤ getVal nA (runEpisodes γ bp nA eps (C, Q)).1 s' a' := by
  intro eps
  induction eps with
  | nil =>
    intro C Q hbp s' a'
    rw [runEpisodes]
  | cons ep rest ih =>
    intro C Q hbp s' a'
    rw [runEpisodes]
    refine le_trans
      (backwardPass_C_mono γ bp nA ep C Q
        (fun e he => hbp ep (List.mem_cons_self _ _) e he) s' a') ?_
    exact ih _ _ (fun ep' hep' e he => hbp ep' (List.mem_cons_of_mem _ hep') e he) s' a'

theorem genLoop_length_le (stepf : S → Nat → S × ℚ × Bool) (choose : Nat → S → Nat) :
    ∀ (fuel : Nat) (s : S), (genLoop stepf choose fuel s).length ≤ fuel := by
  intro fuel
  induction fuel with
  | zero => intro s; rw [genLoop]; simp
  | succ n ih =>
    intro s
    rw [genLoop]
    by_cases hd : (stepf s (choose (n + 1) s)).2.2
    · simp [hd]
    · simp only [hd, if_false, List.length_cons]
      exact Nat.succ_le_succ (ih _)

theorem genLoop_length_eq (stepf : S → Nat → S × ℚ × Bool) (choose : Nat → S → Nat)
    (hnd : ∀ (s : S) (a : Nat), (stepf s a).2.2 = false) :
    ∀ (fuel : Nat) (s : S), (genLoop stepf choose fuel s).length = fuel := by
  intro fuel
  induction fuel with
  | zero => intro s; rw [genLoop]; rfl
  | succ n ih =>
    intro s
    rw [genLoop]
    simp only [hnd, List.length_cons, if_neg (by simp : ¬(false = true))]
    rw [ih]

/-! ## Claim theorems -/

/-- Claim C9: the behavior-policy constructor, given an action-space size
`nA ≥ 1`, returns a stateless policy that at every state returns the uniform
distribution of `nA` entries each equal to `1/nA`, with no side effects (the
model is a pure function). -/
theorem claim_C9 (nA : Nat) (hnA : 1 ≤ nA) (s : S) :
    (create_random_policy nA s).length = nA ∧
    (∀ i, i < nA → (create_random_policy nA s).getD i 0 = 1 / (nA : ℚ)) ∧
    (∀ s' : S, create_random_policy nA s = create_random_policy nA s') := by
  refine ⟨by simp [create_random_policy], ?_, fun s' => rfl⟩
  intro i hi
  rw [create_random_policy, getD_replicate, if_pos hi]

/-- Claim C9 witness: at `nA = 2` the policy has two entries, each `1/2`. -/
theorem claim_C9_witness :
    1 ≤ 2 ∧ (create_random_policy 2 (0 : Nat)).length = 2 ∧
    (create_random_policy 2 (0 : Nat)).getD 0 0 = 1 / 2 := by
  have h := claim_C9 (S := Nat) 2 (by norm_num) 0
  exact ⟨by norm_num, h.1, by simpa using h.2.1 0 (by norm_num)⟩

/-- Claim C10: at a state absent from `Q` the greedy target policy sees the
lazily-created all-zero row; the first-maximum argmax of an all-zero row is
index 0, so the returned distribution is one-hot at action 0. -/
theorem claim_C10 (nA : Nat) (rows : Rows S) (s : S) (h : lookupRow rows s = none)
    (hnA : 1 ≤ nA) :
    argmaxFirst (List.replicate nA (0 : ℚ)) = 0 ∧
    (create_greedy_policy nA rows s).1 = oneHot nA 0 ∧
    ((create_greedy_policy nA rows s).1).getD 0 0 = 1 := by
  refine ⟨argmaxFirst_replicate nA 0, ?_, ?_⟩
  · rw [create_greedy_policy_of_none nA rows s h]
    rw [argmaxFirst_replicate]
  · rw [create_greedy_policy_of_none nA rows s h]
    rw [argmaxFirst_replicate]
    exact getD_oneHot_self nA 0 (by omega)

/-- Claim C10 witness: on the empty table with `nA = 2` the greedy policy at
state 0 returns `[1, 0]`. -/
theorem claim_C10_witness :
    lookupRow ([] : Rows Nat) 0 = none ∧ 1 ≤ 2 ∧
    (create_greedy_policy 2 ([] : Rows Nat) 0).1 = oneHot 2 0 ∧
    (create_greedy_policy 2 ([] : Rows Nat) 0).1 = [1, 0] := by
  refine ⟨rfl, by norm_num, (claim_C10 2 [] 0 rfl (by norm_num)).2.1, ?_⟩
  norm_num [create_greedy_policy, getItem, lookupRow, argmaxFirst, argmaxGo, oneHot,
    List.replicate]

/-- Claim C3: for any row the greedy target policy returns a distribution of
the same length that is one-hot (entry 1, all others 0) at the first-maximum
index of the row: that index is in range, no entry of the row exceeds it, and
every strictly earlier entry is strictly smaller (ties resolve to the lowest
index). -/
theorem claim_C3 (nA : Nat) (rows : Rows S) (s : S)
    (h : 1 ≤ (getRow nA rows s).length) :
    (create_greedy_policy nA rows s).1 =
      oneHot (getRow nA rows s).length (argmaxFirst (getRow nA rows s)) ∧
    argmaxFirst (getRow nA rows s) < (getRow nA rows s).length ∧
    ((create_greedy_policy nA rows s).1).getD (argmaxFirst (getRow nA rows s)) 0 = 1 ∧
    (∀ j, j ≠ argmaxFirst (getRow nA rows s) → ((create_greedy_policy nA rows s).1).getD j 0 = 0) ∧
    (∀ j, j < (getRow nA rows s).length →
      (getRow nA rows s).getD j 0 ≤ (getRow nA rows s).getD (argmaxFirst (getRow nA rows s)) 0) ∧
    (∀ j, j < argmaxFirst (getRow nA rows s) →
      (getRow nA rows s).getD j 0 < (getRow nA rows s).getD (argmaxFirst (getRow nA rows s)) 0) := by
  have hd : (create_greedy_policy nA rows s).1 =
      oneHot (getRow nA rows s).length (argmaxFirst (getRow nA rows s)) := by
    cases hl : lookupRow rows s with
    | some row =>
      rw [create_greedy_policy_of_some nA rows s row hl]
      unfold getRow
      rw [hl]
      simp
    | none =>
      rw [create_greedy_policy_of_none nA rows s hl]
      unfold getRow
      rw [hl]
      simp
  have hne : getRow nA rows s ≠ [] := by
    intro hc
    rw [hc] at h
    simp at h
  obtain ⟨hlt, hmax, hfirst⟩ := argmaxFirst_spec (getRow nA rows s) hne
  refine ⟨hd, hlt, ?_, ?_, hmax, hfirst⟩
  · rw [hd]
    exact getD_oneHot_self _ _ hlt
  · intro j hj
    rw [hd]
    exact getD_oneHot_ne _ _ j hj

/-- Claim C3 witness: the spec example `Q[s] = [0.2, 0.5, 0.5]` gives the
one-hot distribution `[0, 1, 0]` (tie between indices 1 and 2 resolves to 1). -/
theorem claim_C3_witness :
    1 ≤ (getRow 3 [((0 : Nat), [(1 : ℚ)/5, 1/2, 1/2])] 0).length ∧
    ((create_greedy_policy 3 [((0 : Nat), [(1 : ℚ)/5, 1/2, 1/2])] 0).1).getD
      (argmaxFirst (getRow 3 [((0 : Nat), [(1 : ℚ)/5, 1/2, 1/2])] 0)) 0 = 1 ∧
    (create_greedy_policy 3 [((0 : Nat), [(1 : ℚ)/5, 1/2, 1/2])] 0).1 = [0, 1, 0] := by
  have h1 : 1 ≤ (getRow 3 [((0 : Nat), [(1 : ℚ)/5, 1/2, 1/2])] 0).length := by
    norm_num [getRow, lookupRow]
  refine ⟨h1, (claim_C3 3 _ 0 h1).2.2.1, ?_⟩
  norm_num [create_greedy_policy, getItem, lookupRow, argmaxFirst, argmaxGo, oneHot]

/-- Claim C4 counterexample: evaluating the greedy target policy at state 0 on
the empty `Q` table persists the lazily-created zero row into the table (the
defaultdict lookup in `policy_fn` mutates `Q`), contradicting the claim that
policy evaluation never mutates `Q`. -/
theorem claim_C4_counterexample :
    lookupRow ([] : Rows Nat) 0 = none ∧
    (create_greedy_policy 2 ([] : Rows Nat) 0).2 = [(0, [0, 0])] ∧
    (create_greedy_policy 2 ([] : Rows Nat) 0).2 ≠ ([] : Rows Nat) := by
  refine ⟨rfl, ?_, ?_⟩
  · norm_num [create_greedy_policy, getItem, lookupRow, List.replicate]
  · norm_num [create_greedy_policy, getItem, lookupRow, List.replicate]

/-- Claim C4 amended: evaluating the greedy target policy at a state absent
from `Q` does persist the lazily-defaulted zero row into `Q` (the key set
grows by exactly that binding), but the inserted row equals the lazy default,
so every cell value read from `Q` is unchanged; at a state already present the
table is not modified at all. -/
theorem claim_C4_amended (nA : Nat) (rows : Rows S) (s : S) :
    (lookupRow rows s = none →
      (create_greedy_policy nA rows s).2 = rows ++ [(s, List.replicate nA 0)] ∧
      ∀ (s' : S) (a' : Nat),
        getVal nA (create_greedy_policy nA rows s).2 s' a' = getVal nA rows s' a') ∧
    (∀ row, lookupRow rows s = some row → (create_greedy_policy nA rows s).2 = rows) := by
  constructor
  · intro h
    have h2 : (create_greedy_policy nA rows s).2 = rows ++ [(s, List.replicate nA 0)] := by
      rw [create_greedy_policy_of_none nA rows s h]
    refine ⟨h2, ?_⟩
    intro s' a'
    rw [h2]
    unfold getVal getRow
    rw [lookupRow_append_single]
    cases hl : lookupRow rows s' with
    | some r => simp
    | none =>
      by_cases hss : s = s'
      · rw [if_pos hss]
        rfl
      · rw [if_neg hss]
  · intro row h
    rw [create_greedy_policy_of_some nA rows s row h]

/-- Claim C4 witness: concrete instances of both branches of the amended
claim (absent state at the empty table, present state at a one-row table). -/
theorem claim_C4_witness :
    lookupRow ([] : Rows Nat) 0 = none ∧
    (create_greedy_policy 2 ([] : Rows Nat) 0).2 = [] ++ [(0, List.replicate 2 0)] ∧
    getVal 2 (create_greedy_policy 2 ([] : Rows Nat) 0).2 0 1 = getVal 2 ([] : Rows Nat) 0 1 ∧
    lookupRow [((3 : Nat), [(0 : ℚ), 0])] 3 = some [0, 0] ∧
    (create_greedy_policy 2 [((3 : Nat), [(0 : ℚ), 0])] 3).2 = [((3 : Nat), [(0 : ℚ), 0])] := by
  have h1 := (claim_C4_amended 2 ([] : Rows Nat) 0).1 rfl
  have h2 := (claim_C4_amended 2 [((3 : Nat), [(0 : ℚ), 0])] 3).2 [0, 0] rfl
  exact ⟨rfl, h1.1, h1.2 0 1, rfl, h2⟩

/-- Claim C5: in a backward-pass update step with running weight `W > 0` and a
previously non-negative accumulator cell, the accumulator increment happens
before the division: the `C` table produced by `stepUpdate` is exactly the
incremented table, and the denominator cell used in the division equals the
old value plus `W`, hence is at least `W` and strictly positive. -/
theorem claim_C5 (γ : ℚ) (nA : Nat) (s : S) (a : Nat) (r G W : ℚ) (C Q : Rows S)
    (hW : 0 < W) (hC0 : 0 ≤ getVal nA C s a) (ha : a < nA) (hC : WF nA C) :
    (stepUpdate γ nA s a r G W C Q).2.1 = setItem nA C s a (getVal nA C s a + W) ∧
    getVal nA (setItem nA C s a (getVal nA C s a + W)) s a = getVal nA C s a + W ∧
    W ≤ getVal nA (setItem nA C s a (getVal nA C s a + W)) s a ∧
    0 < getVal nA (setItem nA C s a (getVal nA C s a + W)) s a := by
  have h1 := getVal_setItem_self nA C s a (getVal nA C s a + W) hC ha
  exact ⟨stepUpdate_C γ nA s a r G W C Q, h1, by rw [h1]; linarith, by rw [h1]; linarith⟩

/-- Claim C5 witness: a concrete update step on the empty `C` table with
`W = 1` makes the denominator cell `1 > 0`. -/
theorem claim_C5_witness :
    (0 : ℚ) < 1 ∧ (0 : ℚ) ≤ getVal 2 ([] : Rows Nat) 0 0 ∧ 0 < 2 ∧ WF 2 ([] : Rows Nat) ∧
    0 < getVal 2 (setItem 2 ([] : Rows Nat) 0 0 (getVal 2 ([] : Rows Nat) 0 0 + 1)) 0 0 := by
  have hC : WF 2 ([] : Rows Nat) := by intro p hp; simp at hp
  have hC0 : (0 : ℚ) ≤ getVal 2 ([] : Rows Nat) 0 0 := by
    norm_num [getVal, getRow, lookupRow, getD_replicate]
  exact ⟨by norm_num, hC0, by norm_num, hC,
    (claim_C5 1 2 0 0 1 0 1 ([] : Rows Nat) ([] : Rows Nat) (by norm_num) hC0
      (by norm_num) hC).2.2.2⟩

/-- Claim C1: when the recorded action of the latest step disagrees with the
argmax of the target policy evaluated on the just-updated `Q` (the break flag
of `backIter`), the reverse traversal stops at once: the whole backward loop
equals that single iteration, the cell `C[state][action]` was incremented by
`W`, and every other `(state, action)` cell of both `C` and `Q` is untouched. -/
theorem claim_C1 (γ : ℚ) (bp : S → List ℚ) (nA : Nat) (s : S) (a : Nat) (r : ℚ)
    (rest : List (S × Nat × ℚ)) (st : MCState S)
    (hbrk : (backIter γ bp nA s a r st).2 = true)
    (ha : a < nA) (hC : WF nA st.C) :
    backLoop γ bp nA ((s, a, r) :: rest) st = (backIter γ bp nA s a r st).1 ∧
    getVal nA (backIter γ bp nA s a r st).1.C s a = getVal nA st.C s a + st.W ∧
    (∀ (s' : S) (a' : Nat), ¬(s' = s ∧ a' = a) →
      getVal nA (backIter γ bp nA s a r st).1.C s' a' = getVal nA st.C s' a' ∧
      getVal nA (backIter γ bp nA s a r st).1.Q s' a' = getVal nA st.Q s' a') := by
  refine ⟨backLoop_cons_break γ bp nA s a r rest st hbrk, ?_, ?_⟩
  · rw [backIter_C, stepUpdate_C, getVal_setItem_self nA st.C s a _ hC ha]
  · intro s' a' hne
    constructor
    · rw [backIter_C, stepUpdate_C, getVal_setItem]
      rw [if_neg (fun hcon => hne ⟨hcon.1.symm, hcon.2.1.symm⟩)]
    · rw [backIter_Q, stepUpdate_Q, getVal_setItem]
      rw [if_neg (fun hcon => hne ⟨hcon.1.symm, hcon.2.1.symm⟩)]

/-- Claim C1 witness: on the 2-entry reversed trajectory whose latest step
`(0, 1, -1)` disagrees with the greedy action after its own update, the loop
result equals the single iteration and the earlier entry `(5, 0, 2)` is never
processed. -/
theorem claim_C1_witness :
    (backIter 1 (create_random_policy 2) 2 (0 : Nat) 1 (-1) ⟨0, 1, [], []⟩).2 = true ∧
    (1 : Nat) < 2 ∧ WF 2 ([] : Rows Nat) ∧
    backLoop 1 (create_random_policy 2) 2 [((0 : Nat), 1, -1), (5, 0, 2)] ⟨0, 1, [], []⟩ =
      (backIter 1 (create_random_policy 2) 2 (0 : Nat) 1 (-1) ⟨0, 1, [], []⟩).1 := by
  have hWF : WF 2 ([] : Rows Nat) := fun p hp => absurd hp (List.not_mem_nil p)
  have hbrk : (backIter 1 (create_random_policy 2) 2 (0 : Nat) 1 (-1) ⟨0, 1, [], []⟩).2 = true := by
    norm_num [backIter, stepUpdate, create_greedy_policy, getItem, setItem, setRow, getRow,
      getVal, lookupRow, argmaxFirst, argmaxGo, oneHot, create_random_policy, List.replicate]
  exact ⟨hbrk, by norm_num, hWF,
    (claim_C1 1 (create_random_policy 2) 2 0 1 (-1) [(5, 0, 2)] ⟨0, 1, [], []⟩ hbrk
      (by norm_num) hWF).1⟩

/-- Claim C2: a single backward-pass update step with weight `W = 1` on a
previously unvisited `(state, action)` pair (both cells 0) sets
`C[state][action]` to 1 and `Q[state][action]` exactly to the running return
`G` computed at that step; in particular processing the 1-step episode
`[(s, a, r)]` from such tables yields `C[s][a] = 1` and `Q[s][a] = r`. -/
theorem claim_C2 (γ : ℚ) (bp : S → List ℚ) (nA : Nat) (s : S) (a : Nat) (r : ℚ)
    (C Q : Rows S) (hC : WF nA C) (hQ : WF nA Q) (ha : a < nA)
    (hC0 : getVal nA C s a = 0) (hQ0 : getVal nA Q s a = 0) :
    (∀ G0 : ℚ,
      getVal nA (stepUpdate γ nA s a r G0 1 C Q).2.1 s a = 1 ∧
      getVal nA (stepUpdate γ nA s a r G0 1 C Q).2.2 s a = γ * G0 + r) ∧
    getVal nA (backwardPass γ bp nA [(s, a, r)] C Q).C s a = 1 ∧
    getVal nA (backwardPass γ bp nA [(s, a, r)] C Q).Q s a = r := by
  have key : ∀ G0 : ℚ,
      getVal nA (stepUpdate γ nA s a r G0 1 C Q).2.1 s a = 1 ∧
      getVal nA (stepUpdate γ nA s a r G0 1 C Q).2.2 s a = γ * G0 + r := by
    intro G0
    constructor
    · rw [stepUpdate_C, getVal_setItem_self nA C s a _ hC ha, hC0]
      norm_num
    · rw [stepUpdate_Q, getVal_setItem_self nA Q s a _ hQ ha, hQ0,
        getVal_setItem_self nA C s a _ hC ha, hC0]
      norm_num
  have hrev : ([(s, a, r)] : List (S × Nat × ℚ)).reverse = [(s, a, r)] := by simp
  refine ⟨key, ?_, ?_⟩
  · unfold backwardPass
    rw [hrev, backLoop_singleton]
    have hc := backIter_C γ bp nA s a r ⟨0, 1, C, Q⟩
    rw [hc]
    exact (key 0).1
  · unfold backwardPass
    rw [hrev, backLoop_singleton]
    have hq := backIter_Q γ bp nA s a r ⟨0, 1, C, Q⟩
    rw [hq]
    have h2 := (key 0).2
    simpa using h2

/-- Claim C2 witness: the spec's end-to-end scenario — the 1-step episode
`[(s0, a0, reward 1)]` with discount 1, uniform behavior policy over 2
actions, from empty tables gives `C[s0][a0] = 1` and `Q[s0][a0] = 1`. -/
theorem claim_C2_witness :
    WF 2 ([] : Rows Nat) ∧ (0 : Nat) < 2 ∧ getVal 2 ([] : Rows Nat) 0 0 = 0 ∧
    getVal 2 (backwardPass 1 (create_random_policy 2) 2 [((0 : Nat), 0, 1)] [] []).C 0 0 = 1 ∧
    getVal 2 (backwardPass 1 (create_random_policy 2) 2 [((0 : Nat), 0, 1)] [] []).Q 0 0 = 1 := by
  have hWF : WF 2 ([] : Rows Nat) := fun p hp => absurd hp (List.not_mem_nil p)
  have h0 : getVal 2 ([] : Rows Nat) 0 0 = 0 := by
    norm_num [getVal, getRow, lookupRow, getD_replicate]
  have h := claim_C2 1 (create_random_policy 2) 2 0 0 1 [] [] hWF hWF (by norm_num) h0 h0
  exact ⟨hWF, by norm_num, h0, h.2.1, h.2.2⟩

/-- Claim C6: every single update step with non-negative running weight leaves
every `C` cell no smaller; over a whole episode's backward pass, and over a
whole run of episodes, each `C` cell is non-decreasing and stays non-negative,
provided the behavior policy gives every action taken in the trajectories
strictly positive probability. -/
theorem claim_C6 (γ : ℚ) (bp : S → List ℚ) (nA : Nat) :
    (∀ (s : S) (a : Nat) (r G W : ℚ) (C Q : Rows S) (s' : S) (a' : Nat), 0 ≤ W →
      getVal nA C s' a' ≤ getVal nA (stepUpdate γ nA s a r G W C Q).2.1 s' a') ∧
    (∀ (ep : List (S × Nat × ℚ)) (C Q : Rows S),
      (∀ e ∈ ep, 0 < (bp e.1).getD e.2.1 0) →
      ∀ (s' : S) (a' : Nat),
        getVal nA C s' a' ≤ getVal nA (backwardPass γ bp nA ep C Q).C s' a') ∧
    (∀ (eps : List (List (S × Nat × ℚ))) (C Q : Rows S),
      (∀ ep ∈ eps, ∀ e ∈ ep, 0 < (bp e.1).getD e.2.1 0) →
      ∀ (s' : S) (a' : Nat),
        getVal nA C s' a' ≤ getVal nA (runEpisodes γ bp nA eps (C, Q)).1 s' a' ∧
        (0 ≤ getVal nA C s' a' →
          0 ≤ getVal nA (runEpisodes γ bp nA eps (C, Q)).1 s' a')) := by
  refine ⟨?_, ?_, ?_⟩
  · intro s a r G W C Q s' a' hW
    rw [stepUpdate_C]
    exact getVal_setItem_ge nA C s a W hW s' a'
  · intro ep C Q hbp s' a'
    exact backwardPass_C_mono γ bp nA ep C Q hbp s' a'
  · intro eps C Q hbp s' a'
    have hm := runEpisodes_C_mono γ bp nA eps C Q hbp s' a'
    exact ⟨hm, fun hini => le_trans hini hm⟩

/-- Claim C6 witness: a concrete 1-episode run under the uniform behavior
policy, whose trajectory actions all have probability `1/2 > 0`, leaves the
cell `C[0][0]` at least its initial value 0. -/
theorem claim_C6_witness :
    (∀ ep ∈ [[((0 : Nat), 0, (1 : ℚ))]], ∀ e ∈ ep,
      0 < (create_random_policy 2 e.1).getD e.2.1 0) ∧
    getVal 2 ([] : Rows Nat) 0 0 ≤
      getVal 2 (runEpisodes 1 (create_random_policy 2) 2 [[((0 : Nat), 0, 1)]] ([], [])).1 0 0 := by
  have hbp : ∀ ep ∈ [[((0 : Nat), 0, (1 : ℚ))]], ∀ e ∈ ep,
      0 < (create_random_policy 2 e.1).getD e.2.1 0 := by
    intro ep hep e he
    simp only [List.mem_singleton] at hep
    subst hep
    simp only [List.mem_singleton] at he
    subst he
    norm_num [create_random_policy, getD_replicate]
  exact ⟨hbp,
    ((claim_C6 1 (create_random_policy 2) 2).2.2 [[((0 : Nat), 0, 1)]] [] [] hbp 0 0).1⟩

/-- Claim C7: for a 3-step chronological episode with rewards `r1, r2, r3` and
discount factor 1, if neither of the two later steps breaks the reverse
traversal (so it reaches the earliest step), the running return computed at
the earliest step — the `G` of the final state — equals `r1 + r2 + r3`. -/
theorem claim_C7 (bp : S → List ℚ) (nA : Nat) (s1 s2 s3 : S) (a1 a2 a3 : Nat)
    (r1 r2 r3 : ℚ) (C Q : Rows S)
    (h3 : (backIter 1 bp nA s3 a3 r3 ⟨0, 1, C, Q⟩).2 = false)
    (h2 : (backIter 1 bp nA s2 a2 r2 (backIter 1 bp nA s3 a3 r3 ⟨0, 1, C, Q⟩).1).2 = false) :
    (backwardPass 1 bp nA [(s1, a1, r1), (s2, a2, r2), (s3, a3, r3)] C Q).G =
      r1 + r2 + r3 := by
  unfold backwardPass
  have hrev : ([(s1, a1, r1), (s2, a2, r2), (s3, a3, r3)] : List (S × Nat × ℚ)).reverse =
      [(s3, a3, r3), (s2, a2, r2), (s1, a1, r1)] := by simp
  rw [hrev]
  rw [backLoop_cons_continue 1 bp nA s3 a3 r3 _ _ h3]
  rw [backLoop_cons_continue 1 bp nA s2 a2 r2 _ _ h2]
  rw [backLoop_singleton]
  rw [backIter_G, backIter_G, backIter_G]
  show (1 : ℚ) * ((1 : ℚ) * ((1 : ℚ) * 0 + r3) + r2) + r1 = r1 + r2 + r3
  ring

/-- Claim C7 witness: the 3-step episode `[(0,0,1), (1,0,1), (2,0,1)]` under
the uniform behavior policy from empty tables never breaks, and its final `G`
is `3 = 1 + 1 + 1`. -/
theorem claim_C7_witness :
    (backIter 1 (create_random_policy 2) 2 (2 : Nat) 0 1 ⟨0, 1, [], []⟩).2 = false ∧
    (backIter 1 (create_random_policy 2) 2 (1 : Nat) 0 1
      (backIter 1 (create_random_policy 2) 2 (2 : Nat) 0 1 ⟨0, 1, [], []⟩).1).2 = false ∧
    (backwardPass 1 (create_random_policy 2) 2
      [((0 : Nat), 0, 1), (1, 0, 1), (2, 0, 1)] [] []).G = 1 + 1 + 1 := by
  have h3 : (backIter 1 (create_random_policy 2) 2 (2 : Nat) 0 1 ⟨0, 1, [], []⟩).2 = false := by
    norm_num [backIter, stepUpdate, create_greedy_policy, getItem, setItem, setRow, getRow,
      getVal, lookupRow, argmaxFirst, argmaxGo, oneHot, create_random_policy, List.replicate]
  have h2 : (backIter 1 (create_random_policy 2) 2 (1 : Nat) 0 1
      (backIter 1 (create_random_policy 2) 2 (2 : Nat) 0 1 ⟨0, 1, [], []⟩).1).2 = false := by
    norm_num [backIter, stepUpdate, create_greedy_policy, getItem, setItem, setRow, getRow,
      getVal, lookupRow, argmaxFirst, argmaxGo, oneHot, create_random_policy, List.replicate]
  exact ⟨h3, h2, claim_C7 (create_random_policy 2) 2 0 1 2 0 0 0 1 1 1 [] [] h3 h2⟩

/-- Claim C8: the episode generator produces at most `maxStep` triples; when
the environment reports done on the very first step the trajectory is exactly
that one (appended) triple; when the environment never reports done the whole
budget is used; and the per-episode control step passes the generated
trajectory — budget-exhausted or not — to the backward pass unconditionally. -/
theorem claim_C8 (γ : ℚ) (bp : S → List ℚ) (nA : Nat) (stepf : S → Nat → S × ℚ × Bool)
    (choose : Nat → S → Nat) (maxStep : Nat) (s0 : S) (C Q : Rows S) :
    (genLoop stepf choose maxStep s0).length ≤ maxStep ∧
    (∀ (ns : S) (r : ℚ), 0 < maxStep → stepf s0 (choose maxStep s0) = (ns, r, true) →
      genLoop stepf choose maxStep s0 = [(s0, choose maxStep s0, r)]) ∧
    ((∀ (s : S) (a : Nat), (stepf s a).2.2 = false) →
      (genLoop stepf choose maxStep s0).length = maxStep) ∧
    mc_episode γ bp nA stepf choose maxStep s0 C Q =
      backwardPass γ bp nA (genLoop stepf choose maxStep s0) C Q := by
  refine ⟨genLoop_length_le stepf choose maxStep s0, ?_,
    fun h => genLoop_length_eq stepf choose h maxStep s0, rfl⟩
  intro ns r hpos hdone
  cases maxStep with
  | zero => omega
  | succ n =>
    rw [genLoop]
    simp [hdone]

/-- Claim C8 witness: with an environment that is done at once the trajectory
under the notebook budget `MAX_STEP` is the single appended triple; with an
environment that is never done the budget 3 is exhausted exactly. -/
theorem claim_C8_witness :
    genLoop (fun (s : Nat) (_ : Nat) => (s + 1, (1 : ℚ), true)) (fun _ _ => 0) MAX_STEP 0 =
      [(0, 0, 1)] ∧
    (genLoop (fun (s : Nat) (_ : Nat) => (s + 1, (-1 : ℚ), false)) (fun _ _ => 0) 3 0).length
      = 3 ∧
    (genLoop (fun (s : Nat) (_ : Nat) => (s + 1, (-1 : ℚ), false)) (fun _ _ => 0) 3 0).length
      ≤ 3 := by
  refine ⟨?_, ?_, ?_⟩
  · exact (claim_C8 1 (create_random_policy 2) 2 _ _ MAX_STEP 0 [] []).2.1 1 1
      (by norm_num [MAX_STEP]) rfl
  · exact (claim_C8 1 (create_random_policy 2) 2 _ _ 3 0 [] []).2.2.1 (fun s a => rfl)
  · exact (claim_C8 1 (create_random_policy 2) 2 _ _ 3 0 [] []).1

end Racetrack
